import Mathlib

/-!
A shallow embedding of the query-normalization core of pg_query
(src/ext/pg_query/pg_query.c).

The external flex scanner (scanner_init / core_yylex) is modelled as a list
of tokens, each with a start offset (the C yylloc) and an end offset (the
position of the zero byte flex places after the token text in scanbuf, so
that strlen(scanbuf + loc) computes stop - loc).  Query text is a list of
bytes, modelled as a list of Char.  C int values are modelled as Int, C
array sizes and counts as Nat.  The libc qsort over comp_location is
modelled by a comparison sort on the same key.  The two
Assert(len_to_wrt >= 0) statements in generate_normalized_query are
modelled by an Option result that is none exactly when an assertion would
fire.
-/

namespace PgQuery

/-- A token produced by the external scanner: its start offset in the query
text (yylloc) and the end boundary of its text in the scan buffer. -/
structure Token where
  start : Nat
  stop : Nat
deriving DecidableEq

/-- pgssLocationLen: start offset in the query text and length in bytes, or
-1 to ignore, of one constant. -/
structure pgssLocationLen where
  location : Int
  length : Int
deriving DecidableEq

/-- comp_location: the ordering on pgssLocationLen records used by qsort
(compare by location). -/
def comp_location (a b : pgssLocationLen) : Bool :=
  a.location ≤ b.location

/-- Insertion step of the model of qsort. -/
def insertByLocation (s : pgssLocationLen) : List pgssLocationLen → List pgssLocationLen
  | [] => [s]
  | t :: rest =>
    if comp_location s t then s :: t :: rest else t :: insertByLocation s rest

/-- Model of qsort(locs, n, sizeof(pgssLocationLen), comp_location): a
comparison sort ascending by location (ties in arbitrary order, as qsort is
unstable). -/
def sortByLocation : List pgssLocationLen → List pgssLocationLen
  | [] => []
  | s :: rest => insertByLocation s (sortByLocation rest)

/-- The inner for(;;) loop of fill_in_constant_lengths: lex tokens until one
starts at or after loc (yylloc >= loc).  none models hitting end-of-string
(tok == 0), including when it happens while consuming the extra token of a
constant whose source byte at loc is a leading minus sign.  On success the
result is the resolved length strlen(yyextra.scanbuf + loc), i.e. the end of
the current token minus loc, together with the not-yet-consumed remainder of
the token stream. -/
def lexUntil (query : List Char) (loc : Int) : List Token → Option (Int × List Token)
  | [] => none
  | t :: rest =>
    if loc ≤ (t.start : Int) then
      if query[loc.toNat]? = some '-' then
        match rest with
        | [] => none
        | t2 :: rest2 => some ((t2.stop : Int) - loc, rest2)
      else some ((t.stop : Int) - loc, rest)
    else lexUntil query loc rest

/-- The outer loop of fill_in_constant_lengths over the sorted records,
threading the scanner state (remaining token stream) and last_loc.  A record
whose location is at most last_loc is a duplicate and is skipped with its
length unchanged; when the scanner hits end-of-string the loop gives up and
every remaining record is returned unchanged. -/
def fillLoop (query : List Char) : List pgssLocationLen → List Token → Int → List pgssLocationLen
  | [], _, _ => []
  | s :: rest, toks, last_loc =>
    if s.location ≤ last_loc then
      s :: fillLoop query rest toks last_loc
    else
      match lexUntil query s.location toks with
      | none => s :: rest
      | some (len, toks2) =>
        { s with length := len } :: fillLoop query rest toks2 s.location

/-- fill_in_constant_lengths: sort the records by location (qsort runs only
when there is more than one entry), then resolve the textual length of each
constant in one forward scan of the token stream, starting with
last_loc = -1. -/
def fill_in_constant_lengths (toks : List Token) (spans : List pgssLocationLen)
    (query : List Char) : List pgssLocationLen :=
  let locs := if spans.length > 1 then sortByLocation spans else spans
  fillLoop query locs toks (-1)

/-- The main loop of generate_normalized_query together with the final tail
copy.  Records with a negative length are ignored; for each remaining record
the chunk of source text preceding the constant is copied verbatim
(len_to_wrt = off - last_off - last_tok_len bytes starting at quer_loc) and
one placeholder byte is written in place of the constant.  The
Assert(len_to_wrt >= 0) statements are modelled by returning none when a
computed copy length is negative. -/
def rewriteLoop (query : List Char) : List pgssLocationLen → Int → Int → Int → Option (List Char)
  | [], quer_loc, _, _ =>
    let len_to_wrt : Int := (query.length : Int) - quer_loc
    if len_to_wrt < 0 then none
    else some ((query.drop quer_loc.toNat).take len_to_wrt.toNat)
  | s :: rest, quer_loc, last_off, last_tok_len =>
    if s.length < 0 then
      rewriteLoop query rest quer_loc last_off last_tok_len
    else
      let len_to_wrt : Int := s.location - last_off - last_tok_len
      if len_to_wrt < 0 then none
      else
        match rewriteLoop query rest (s.location + s.length) s.location s.length with
        | none => none
        | some out =>
          some (((query.drop quer_loc.toNat).take len_to_wrt.toNat) ++ '?' :: out)

/-- generate_normalized_query: fill in the constants' lengths (which also
sorts the records by location), then rewrite the query text with one '?' per
replaced constant. -/
def generate_normalized_query (toks : List Token) (spans : List pgssLocationLen)
    (query : List Char) : Option (List Char) :=
  rewriteLoop query (fill_in_constant_lengths toks spans query) 0 0 0

/-- The records actually replaced by the rewriter: those whose resolved
length is nonnegative. -/
def resolvedSpans (spans : List pgssLocationLen) : List pgssLocationLen :=
  spans.filter (fun s => decide (0 ≤ s.length))

/-- Total byte length of the replaced constants. -/
def resolvedLenSum (spans : List pgssLocationLen) : Int :=
  ((resolvedSpans spans).map (fun s => s.length)).sum

/-- Non-overlap discipline for resolved records: walking the list left to
right from previous end prevEnd, every record with a nonnegative length
starts at or after prevEnd and ends within the first qlen bytes of the
query; records with negative length are ignored. -/
def wfFromB (qlen : Int) (prevEnd : Int) : List pgssLocationLen → Bool
  | [] => true
  | s :: rest =>
    if s.length < 0 then wfFromB qlen prevEnd rest
    else decide (prevEnd ≤ s.location) && decide (s.location + s.length ≤ qlen) &&
         wfFromB qlen (s.location + s.length) rest

/-- pgssConstLocations: growable array of constant records.  The allocated
buffer is modelled as a list whose length is the allocated size
clocations_buf_size; entries at positions at or beyond clocations_count are
unspecified junk. -/
structure pgssConstLocations where
  clocations : List pgssLocationLen
  clocations_buf_size : Nat
  clocations_count : Nat
deriving DecidableEq

/-- The append performed by const_record_walker for an A_Const node: when
clocations_count has reached clocations_buf_size, double the buffer size and
extend the allocation (repalloc preserves the existing contents and leaves
the new cells uninitialized, modelled as (0, 0) records); then store the
record (location, -1) at index clocations_count and bump the count. -/
def appendSpan (jstate : pgssConstLocations) (loc : Int) : pgssConstLocations :=
  let grown :=
    if jstate.clocations_buf_size ≤ jstate.clocations_count then
      { jstate with
        clocations_buf_size := jstate.clocations_buf_size * 2,
        clocations := jstate.clocations ++
          List.replicate (jstate.clocations_buf_size * 2 - jstate.clocations.length) ⟨0, 0⟩ }
    else jstate
  { grown with
    clocations := grown.clocations.set grown.clocations_count ⟨loc, -1⟩,
    clocations_count := grown.clocations_count + 1 }

/-- Allocation invariant of the span set: the count never exceeds the
allocated size, the modelled buffer has exactly the allocated size, and the
allocation is nonempty (it starts at 32 cells and only ever doubles). -/
def JInv (st : pgssConstLocations) : Prop :=
  st.clocations_count ≤ st.clocations_buf_size ∧
  st.clocations.length = st.clocations_buf_size ∧
  0 < st.clocations_buf_size

/-- The workspace set up by pg_query_normalize: a fresh buffer of 32 cells
(palloc returns uninitialized memory, modelled as (0, 0) records) and
count 0. -/
def initJState : pgssConstLocations :=
  { clocations := List.replicate 32 ⟨0, 0⟩
    clocations_buf_size := 32
    clocations_count := 0 }

/-- Modelled from the spec: the syntax tree produced by the external parser,
as seen by the constant walker.  aconst models an A_Const node carrying the
parser-reported location; plain models any other node kind recognized by
raw_expression_tree_walker; unknownTag models a node whose tag makes
raw_expression_tree_walker raise (elog); null models a NULL pointer. -/
inductive Node where
  | null : Node
  | aconst : Int → List Node → Node
  | plain : List Node → Node
  | unknownTag : List Node → Node

mutual

/-- const_record_walker: a NULL node reports false; an A_Const node with
location >= 0 appends its record first; then the node's sub-nodes are walked
inside PG_TRY, and a raise while walking this node is absorbed: the error
state is flushed and the result is false, keeping every record appended
before the raise.  A node with an unknown tag makes the walk raise before
any of its sub-nodes are visited, so its catch arm returns (false, state
after this node's own append). -/
def const_record_walker : Node → pgssConstLocations → Bool × pgssConstLocations
  | Node.null, jstate => (false, jstate)
  | Node.aconst loc children, jstate =>
    let j2 := if 0 ≤ loc then appendSpan jstate loc else jstate
    match walkChildren children j2 with
    | Except.ok r => r
    | Except.error stErr => (false, stErr)
  | Node.plain children, jstate =>
    match walkChildren children jstate with
    | Except.ok r => r
    | Except.error stErr => (false, stErr)
  | Node.unknownTag _, jstate => (false, jstate)

/-- Modelled from the spec: the child iteration of the external
raw_expression_tree_walker, which visits each sub-node with the supplied
walker (here const_record_walker) and stops early reporting true as soon as
one visit returns true; the error carries the span-set state at the raise
point (const_record_walker itself never raises, since it catches). -/
def walkChildren : List Node → pgssConstLocations → Except pgssConstLocations (Bool × pgssConstLocations)
  | [], jstate => Except.ok (false, jstate)
  | c :: cs, jstate =>
    let r := const_record_walker c jstate
    if r.1 then Except.ok (true, r.2) else walkChildren cs r.2

end

/-- Modelled from the spec: the external raw_expression_tree_walker applied
to one node — it raises (elog) on an unrecognized node tag and otherwise
visits the node's sub-nodes with the supplied walker. -/
def raw_expression_tree_walker (n : Node) (jstate : pgssConstLocations) :
    Except pgssConstLocations (Bool × pgssConstLocations) :=
  match n with
  | Node.null => Except.ok (false, jstate)
  | Node.aconst _ children => walkChildren children jstate
  | Node.plain children => walkChildren children jstate
  | Node.unknownTag _ => Except.error jstate

/-- ErrorData: the PostgreSQL error record fields read by new_parse_error. -/
structure ErrorData where
  message : String
  cursorpos : Int
deriving DecidableEq

/-- The PgQuery ParseError value raised to the Ruby caller: message and
cursor position. -/
structure ParseError where
  message : String
  cursorpos : Int
deriving DecidableEq

/-- new_parse_error: build a PgQuery ParseError from the caught ErrorData,
carrying the original message and cursor position. -/
def new_parse_error (e : ErrorData) : ParseError :=
  { message := e.message, cursorpos := e.cursorpos }

/-- pg_query_normalize: parse the input with the external raw_parser
(modelled as a function returning either an ErrorData or a tree together
with the scanner's token stream for the same text), walk the tree to record
constant locations, then produce the normalized text.  A parse failure is
caught and surfaced as the ParseError built by new_parse_error, and no
normalized text is produced; the inner Option models the assertions of
generate_normalized_query. -/
def pg_query_normalize
    (parse : String → Except ErrorData (Node × List Token))
    (input : String) : Except ParseError (Option (List Char)) :=
  match parse input with
  | Except.error e => Except.error (new_parse_error e)
  | Except.ok (tree, toks) =>
    let st := (const_record_walker tree initJState).2
    let spans := st.clocations.take st.clocations_count
    Except.ok (generate_normalized_query toks spans input.toList)

lemma resolvedSpans_nil : resolvedSpans [] = [] := rfl

lemma resolvedSpans_cons_pos (s : pgssLocationLen) (rest : List pgssLocationLen)
    (h : 0 ≤ s.length) : resolvedSpans (s :: rest) = s :: resolvedSpans rest := by
  simp [resolvedSpans, List.filter_cons, h]

lemma resolvedSpans_cons_neg (s : pgssLocationLen) (rest : List pgssLocationLen)
    (h : s.length < 0) : resolvedSpans (s :: rest) = resolvedSpans rest := by
  simp [resolvedSpans, List.filter_cons, Int.not_le.mpr h]

lemma resolvedLenSum_nil : resolvedLenSum [] = 0 := rfl

lemma resolvedLenSum_cons_pos (s : pgssLocationLen) (rest : List pgssLocationLen)
    (h : 0 ≤ s.length) :
    resolvedLenSum (s :: rest) = s.length + resolvedLenSum rest := by
  simp [resolvedLenSum, resolvedSpans_cons_pos s rest h]

lemma resolvedLenSum_cons_neg (s : pgssLocationLen) (rest : List pgssLocationLen)
    (h : s.length < 0) :
    resolvedLenSum (s :: rest) = resolvedLenSum rest := by
  simp [resolvedLenSum, resolvedSpans_cons_neg s rest h]

/-- Core accounting of the rewrite loop: whenever it succeeds, the source
cursor lies within the text and the output length satisfies
out + (sum of replaced lengths) = query - quer_loc + (number of replaced
records). -/
lemma rewriteLoop_some_spec (query : List Char) (spans : List pgssLocationLen) :
    ∀ (quer_loc last_off last_tok_len : Int) (out : List Char),
      rewriteLoop query spans quer_loc last_off last_tok_len = some out →
      0 ≤ quer_loc → quer_loc = last_off + last_tok_len →
      quer_loc ≤ (query.length : Int) ∧
      (out.length : Int) + resolvedLenSum spans =
        (query.length : Int) - quer_loc + (resolvedSpans spans).length := by
  induction spans with
  | nil =>
    intro ql lo lt out h hql0 hsum
    simp only [rewriteLoop] at h
    by_cases hneg : (query.length : Int) - ql < 0
    · rw [if_pos hneg] at h
      exact absurd h (by simp)
    · rw [if_neg hneg] at h
      injection h with h
      subst h
      refine ⟨by omega, ?_⟩
      rw [resolvedLenSum_nil, resolvedSpans_nil]
      simp only [List.length_take, List.length_drop, List.length_nil, Nat.cast_zero,
        add_zero]
      omega
  | cons s rest ih =>
    intro ql lo lt out h hql0 hsum
    simp only [rewriteLoop] at h
    by_cases hslen : s.length < 0
    · rw [if_pos hslen] at h
      have hres := ih ql lo lt out h hql0 hsum
      refine ⟨hres.1, ?_⟩
      rw [resolvedLenSum_cons_neg s rest hslen, resolvedSpans_cons_neg s rest hslen]
      exact hres.2
    · rw [if_neg hslen] at h
      by_cases hltw : s.location - lo - lt < 0
      · rw [if_pos hltw] at h
        exact absurd h (by simp)
      · rw [if_neg hltw] at h
        cases hrec : rewriteLoop query rest (s.location + s.length) s.location s.length with
        | none =>
          rw [hrec] at h
          exact absurd h (by simp)
        | some out2 =>
          rw [hrec] at h
          dsimp only at h
          injection h with h
          subst h
          obtain ⟨hql2, heq2⟩ :=
            ih (s.location + s.length) s.location s.length out2 hrec (by omega) rfl
          have hs0 : (0 : Int) ≤ s.length := by omega
          refine ⟨by omega, ?_⟩
          rw [resolvedLenSum_cons_pos s rest hs0, resolvedSpans_cons_pos s rest hs0]
          simp only [List.length_append, List.length_cons, List.length_take,
            List.length_drop]
          push_cast
          omega

/-- Each replaced record contributes at least one byte when every resolved
length is at least 1. -/
lemma resolvedLenSum_ge_count (spans : List pgssLocationLen)
    (h : ∀ s ∈ spans, 0 ≤ s.length → 1 ≤ s.length) :
    ((resolvedSpans spans).length : Int) ≤ resolvedLenSum spans := by
  induction spans with
  | nil => simp [resolvedSpans_nil, resolvedLenSum_nil]
  | cons s rest ih =>
    have hrest := ih (fun t ht h0 => h t (List.mem_cons_of_mem s ht) h0)
    by_cases hs : s.length < 0
    · rw [resolvedSpans_cons_neg s rest hs, resolvedLenSum_cons_neg s rest hs]
      exact hrest
    · have h0 : (0 : Int) ≤ s.length := by omega
      have h1 : (1 : Int) ≤ s.length := h s (List.mem_cons_self s rest) h0
      rw [resolvedSpans_cons_pos s rest h0, resolvedLenSum_cons_pos s rest h0]
      simp only [List.length_cons]
      push_cast
      omega

/-- With every resolved length at least 1 and some resolved length at least
2, the replaced bytes strictly outnumber the placeholders. -/
lemma resolvedLenSum_gt_count (spans : List pgssLocationLen)
    (h1 : ∀ s ∈ spans, 0 ≤ s.length → 1 ≤ s.length)
    (h2 : ∃ s ∈ spans, 2 ≤ s.length) :
    ((resolvedSpans spans).length : Int) + 1 ≤ resolvedLenSum spans := by
  induction spans with
  | nil => simp at h2
  | cons s rest ih =>
    obtain ⟨t, ht, ht2⟩ := h2
    have h1rest : ∀ u ∈ rest, 0 ≤ u.length → 1 ≤ u.length :=
      fun u hu => h1 u (List.mem_cons_of_mem s hu)
    by_cases hs : s.length < 0
    · rw [resolvedSpans_cons_neg s rest hs, resolvedLenSum_cons_neg s rest hs]
      cases List.mem_cons.mp ht with
      | inl heq =>
        subst heq
        omega
      | inr hmem => exact ih h1rest ⟨t, hmem, ht2⟩
    · have h0 : (0 : Int) ≤ s.length := by omega
      rw [resolvedSpans_cons_pos s rest h0, resolvedLenSum_cons_pos s rest h0]
      cases List.mem_cons.mp ht with
      | inl heq =>
        subst heq
        have hrest := resolvedLenSum_ge_count rest h1rest
        simp only [List.length_cons]
        push_cast
        omega
      | inr hmem =>
        have h1s : (1 : Int) ≤ s.length := h1 s (List.mem_cons_self s rest) h0
        have hrest := ih h1rest ⟨t, hmem, ht2⟩
        simp only [List.length_cons]
        push_cast
        omega

/-- C1: in fill_in_constant_lengths, when the source byte at the record's
location is the character '-', resolution consumes exactly one token beyond
the one whose start offset first reaches the location, so the resolved span
covers the minus sign plus the numeric magnitude as one unit; consequently
normalizing the text WHERE x = 1 and the text WHERE x = -2 (with the token
streams an SQL lexer yields for them, the parser reporting the constant at
the position of the minus sign) produces outputs of identical shape. -/
theorem claim_C1 :
    (∀ (query : List Char) (loc : Int) (t t2 : Token) (rest2 : List Token),
        loc ≤ (t.start : Int) →
        query[loc.toNat]? = some '-' →
        lexUntil query loc (t :: t2 :: rest2) = some ((t2.stop : Int) - loc, rest2)) ∧
    generate_normalized_query [⟨0, 5⟩, ⟨6, 7⟩, ⟨8, 9⟩, ⟨10, 11⟩] [⟨10, -1⟩]
        ("WHERE x = 1".toList) = some ("WHERE x = ?".toList) ∧
    generate_normalized_query [⟨0, 5⟩, ⟨6, 7⟩, ⟨8, 9⟩, ⟨10, 11⟩, ⟨11, 12⟩] [⟨10, -1⟩]
        ("WHERE x = -2".toList) = some ("WHERE x = ?".toList) := by
  refine ⟨?_, by decide, by decide⟩
  intro query loc t t2 rest2 h1 h2
  simp [lexUntil, h1, h2]

theorem claim_C1_witness :
    lexUntil ['-'] 0 [⟨0, 1⟩, ⟨1, 2⟩] = some (2, []) :=
  (claim_C1.1 ['-'] 0 ⟨0, 1⟩ ⟨1, 2⟩ [] (by decide) (by decide)).trans (by decide)

/-- C2: the resolver skips any record whose location is at most the last
resolved location, leaving its length unchanged (-1), and the rewriter
ignores every record with a negative length; hence two records at the same
byte offset yield exactly one placeholder, never two (shown end to end on a
duplicated constant). -/
theorem claim_C2 :
    (∀ (query : List Char) (toks : List Token) (s : pgssLocationLen)
        (rest : List pgssLocationLen) (last_loc : Int),
        s.location ≤ last_loc →
        fillLoop query (s :: rest) toks last_loc = s :: fillLoop query rest toks last_loc) ∧
    (∀ (query : List Char) (spans : List pgssLocationLen)
        (quer_loc last_off last_tok_len : Int) (s : pgssLocationLen),
        s.length < 0 →
        rewriteLoop query (s :: spans) quer_loc last_off last_tok_len =
          rewriteLoop query spans quer_loc last_off last_tok_len) ∧
    fill_in_constant_lengths [⟨0, 1⟩, ⟨1, 2⟩, ⟨2, 3⟩] [⟨2, -1⟩, ⟨2, -1⟩] ['x', '=', '1']
      = [⟨2, 1⟩, ⟨2, -1⟩] ∧
    generate_normalized_query [⟨0, 1⟩, ⟨1, 2⟩, ⟨2, 3⟩] [⟨2, -1⟩, ⟨2, -1⟩] ['x', '=', '1']
      = some ['x', '=', '?'] ∧
    List.count '?' ['x', '=', '?'] = 1 := by
  refine ⟨?_, ?_, by decide, by decide, by decide⟩
  · intro query toks s rest last_loc h
    simp [fillLoop, h]
  · intro query spans ql lo lt s h
    simp [rewriteLoop, h]

theorem claim_C2_witness :
    fillLoop [] [⟨0, -1⟩] [] 0 = [⟨0, -1⟩] :=
  (claim_C2.1 [] [] ⟨0, -1⟩ [] 0 (by decide)).trans (by decide)

/-- C4: when the scanner hits end-of-input before a token starting at or
after the current record's location is found (lexUntil = none, which also
covers exhaustion while consuming the extra token of a minus-merged
constant), resolution stops entirely: that record and all remaining records
are returned unchanged (length -1), no error is raised, and records whose
length is still -1 are excluded from rewriting. -/
theorem claim_C4 :
    (∀ (query : List Char) (toks : List Token) (s : pgssLocationLen)
        (rest : List pgssLocationLen) (last_loc : Int),
        ¬ s.location ≤ last_loc →
        lexUntil query s.location toks = none →
        fillLoop query (s :: rest) toks last_loc = s :: rest) ∧
    (∀ (query : List Char) (spans : List pgssLocationLen)
        (quer_loc last_off last_tok_len : Int),
        (∀ t ∈ spans, t.length = -1) →
        rewriteLoop query spans quer_loc last_off last_tok_len =
          rewriteLoop query [] quer_loc last_off last_tok_len) := by
  constructor
  · intro query toks s rest last_loc h1 h2
    simp [fillLoop, h1, h2]
  · intro query spans
    induction spans with
    | nil => intro ql lo lt h; rfl
    | cons s rest ih =>
      intro ql lo lt h
      have hs : s.length = -1 := h s (by simp)
      have hrest : ∀ t ∈ rest, t.length = -1 := fun t ht => h t (by simp [ht])
      have hstep : rewriteLoop query (s :: rest) ql lo lt = rewriteLoop query rest ql lo lt := by
        simp [rewriteLoop, hs]
      rw [hstep]
      exact ih ql lo lt hrest

theorem claim_C4_witness :
    fillLoop [] [⟨0, -1⟩] [] (-1) = [⟨0, -1⟩] :=
  claim_C4.1 [] [] ⟨0, -1⟩ [] (-1) (by decide) (by decide)

/-- C6: on an empty span set (no constants collected, as for an
already-normalized query with no remaining literals), the normalized output
is byte-for-byte identical to the input: the rewriter copies the whole
source verbatim and inserts no placeholder. -/
theorem claim_C6 (toks : List Token) (query : List Char) :
    generate_normalized_query toks [] query = some query := by
  simp [generate_normalized_query, fill_in_constant_lengths, fillLoop, rewriteLoop,
    Int.not_lt.mpr (Int.natCast_nonneg query.length)]

/-- C7: a parse failure is surfaced to the caller as a structured error
carrying the original message and cursor position, and no normalized text is
produced; when the parser succeeds, normalization never raises an error to
the caller. -/
theorem claim_C7 :
    (∀ (parse : String → Except ErrorData (Node × List Token)) (input : String)
        (e : ErrorData),
        parse input = Except.error e →
        pg_query_normalize parse input =
          Except.error { message := e.message, cursorpos := e.cursorpos }) ∧
    (∀ (parse : String → Except ErrorData (Node × List Token)) (input : String)
        (tree : Node) (toks : List Token),
        parse input = Except.ok (tree, toks) →
        ∃ v, pg_query_normalize parse input = Except.ok v) := by
  constructor
  · intro parse input e h
    simp [pg_query_normalize, h, new_parse_error]
  · intro parse input tree toks h
    simp only [pg_query_normalize, h]
    exact ⟨_, rfl⟩

theorem claim_C7_witness :
    pg_query_normalize (fun _ => Except.error ⟨"parse error", 10⟩) "SELECT 1 +"
      = Except.error ⟨"parse error", 10⟩ :=
  claim_C7.1 (fun _ => Except.error ⟨"parse error", 10⟩) "SELECT 1 +" ⟨"parse error", 10⟩ rfl

/-- C8: a failure while visiting one subtree is absorbed locally: the visit
of a node with an unknown tag leaves the span set unchanged and reports
false instead of propagating, the sibling iteration then continues with the
next sub-node, and constants found in sibling subtrees are still collected
(shown concretely: a sibling constant after a failing subtree is recorded). -/
theorem claim_C8 :
    (∀ (kids : List Node) (jstate : pgssConstLocations),
        const_record_walker (Node.unknownTag kids) jstate = (false, jstate)) ∧
    (∀ (kids cs : List Node) (jstate : pgssConstLocations),
        walkChildren (Node.unknownTag kids :: cs) jstate = walkChildren cs jstate) ∧
    ((const_record_walker (Node.plain [Node.unknownTag [], Node.aconst 7 []]) initJState).1
        = false ∧
     ((const_record_walker (Node.plain [Node.unknownTag [], Node.aconst 7 []]) initJState).2).clocations[0]?
        = some ⟨7, -1⟩ ∧
     ((const_record_walker (Node.plain [Node.unknownTag [], Node.aconst 7 []]) initJState).2).clocations_count
        = 1) := by
  refine ⟨fun kids jstate => rfl, ?_, by decide, by decide, by decide⟩
  intro kids cs jstate
  simp [walkChildren, const_record_walker]

/-- C9: appendSpan maintains the invariant count <= capacity: when an append
would exceed the current capacity the capacity is doubled before the new
record (location, -1) is stored, the store happens at an index below the
(possibly doubled) capacity, and the new record sits at position
count - 1 < count. -/
theorem claim_C9 (st : pgssConstLocations) (loc : Int) (h : JInv st) :
    JInv (appendSpan st loc) ∧
    (appendSpan st loc).clocations_count = st.clocations_count + 1 ∧
    (appendSpan st loc).clocations[st.clocations_count]? = some ⟨loc, -1⟩ ∧
    st.clocations_count < (appendSpan st loc).clocations_buf_size := by
  obtain ⟨h1, h2, h3⟩ := h
  by_cases hc : st.clocations_buf_size ≤ st.clocations_count
  · have hce := Nat.le_antisymm h1 hc
    have happ : appendSpan st loc =
        { clocations := (st.clocations ++
            List.replicate (st.clocations_buf_size * 2 - st.clocations.length)
              (⟨0, 0⟩ : pgssLocationLen)).set st.clocations_count ⟨loc, -1⟩,
          clocations_buf_size := st.clocations_buf_size * 2,
          clocations_count := st.clocations_count + 1 } := by
      simp [appendSpan, hc]
    have hlen : (st.clocations ++
        List.replicate (st.clocations_buf_size * 2 - st.clocations.length)
          (⟨0, 0⟩ : pgssLocationLen)).length = st.clocations_buf_size * 2 := by
      simp [List.length_append, List.length_replicate, h2]
      omega
    have hlt : st.clocations_count < (st.clocations ++
        List.replicate (st.clocations_buf_size * 2 - st.clocations.length)
          (⟨0, 0⟩ : pgssLocationLen)).length := by
      rw [hlen]; omega
    rw [happ]
    refine ⟨⟨?_, ?_, ?_⟩, rfl, ?_, ?_⟩
    · dsimp only
      omega
    · dsimp only
      rw [List.length_set, hlen]
    · dsimp only
      omega
    · dsimp only
      exact List.getElem?_set_eq_of_lt _ hlt
    · dsimp only
      omega
  · have happ : appendSpan st loc =
        { clocations := st.clocations.set st.clocations_count ⟨loc, -1⟩,
          clocations_buf_size := st.clocations_buf_size,
          clocations_count := st.clocations_count + 1 } := by
      simp [appendSpan, hc]
    have hlt : st.clocations_count < st.clocations.length := by omega
    rw [happ]
    refine ⟨⟨?_, ?_, ?_⟩, rfl, ?_, ?_⟩
    · dsimp only
      omega
    · dsimp only
      rw [List.length_set, h2]
    · dsimp only
      omega
    · dsimp only
      exact List.getElem?_set_eq_of_lt _ hlt
    · dsimp only
      omega

/-- C3: the normalized output never grows: whenever the rewriter succeeds
and every resolved record in the filled span set has length at least 1 (a
scanner token is at least one byte), the output length is at most the
source length. -/
theorem claim_C3 (toks : List Token) (spans : List pgssLocationLen)
    (query : List Char) (out : List Char)
    (h1 : generate_normalized_query toks spans query = some out)
    (h2 : ∀ s ∈ fill_in_constant_lengths toks spans query,
            0 ≤ s.length → 1 ≤ s.length) :
    out.length ≤ query.length := by
  simp only [generate_normalized_query] at h1
  have hspec := rewriteLoop_some_spec query (fill_in_constant_lengths toks spans query)
    0 0 0 out h1 (by omega) (by omega)
  have hge := resolvedLenSum_ge_count (fill_in_constant_lengths toks spans query) h2
  have heq := hspec.2
  omega

theorem claim_C3_witness :
    (['x', '=', '?'] : List Char).length ≤ (['x', '=', '1', '2'] : List Char).length :=
  claim_C3 [⟨2, 4⟩] [⟨2, -1⟩] ['x', '=', '1', '2'] ['x', '=', '?'] (by decide) (by decide)

/-- When the records respect the non-overlap discipline, every copy length
the rewrite loop computes is nonnegative, so neither assertion fires and the
loop produces an output. -/
lemma rewriteLoop_wf_some (query : List Char) (spans : List pgssLocationLen) :
    ∀ (prevEnd last_off last_tok_len : Int),
      wfFromB (query.length : Int) prevEnd spans = true →
      prevEnd = last_off + last_tok_len →
      prevEnd ≤ (query.length : Int) →
      ∃ out, rewriteLoop query spans prevEnd last_off last_tok_len = some out := by
  induction spans with
  | nil =>
    intro pe lo lt hwf hsum hle
    refine ⟨(query.drop pe.toNat).take ((query.length : Int) - pe).toNat, ?_⟩
    simp only [rewriteLoop]
    rw [if_neg (by omega : ¬ (query.length : Int) - pe < 0)]
  | cons s rest ih =>
    intro pe lo lt hwf hsum hle
    simp only [wfFromB] at hwf
    by_cases hslen : s.length < 0
    · rw [if_pos hslen] at hwf
      obtain ⟨out, hout⟩ := ih pe lo lt hwf hsum hle
      refine ⟨out, ?_⟩
      simp only [rewriteLoop]
      rw [if_pos hslen]
      exact hout
    · rw [if_neg hslen] at hwf
      simp only [Bool.and_eq_true, decide_eq_true_eq] at hwf
      obtain ⟨⟨hpe, hqlen⟩, hwfrest⟩ := hwf
      obtain ⟨out2, hout2⟩ :=
        ih (s.location + s.length) s.location s.length hwfrest rfl hqlen
      refine ⟨((query.drop pe.toNat).take (s.location - lo - lt).toNat) ++ '?' :: out2, ?_⟩
      simp only [rewriteLoop]
      rw [if_neg hslen, if_neg (by omega : ¬ s.location - lo - lt < 0), hout2]

/-- C5: for spans sorted ascending with non-overlapping resolved lengths
lying within the source text, the copy length computed for each replaced
record (location - last_off - last_tok_len) and for the tail is never
negative: the modelled Assert(len_to_wrt >= 0) statements cannot fire, and
the rewriter returns a result. -/
theorem claim_C5 (query : List Char) (spans : List pgssLocationLen)
    (h : wfFromB (query.length : Int) 0 spans = true) :
    ∃ out, rewriteLoop query spans 0 0 0 = some out :=
  rewriteLoop_wf_some query spans 0 0 0 h (by omega)
    (Int.natCast_nonneg query.length)

theorem claim_C5_witness :
    ∃ out, rewriteLoop ['a', 'b', 'c'] [⟨0, 1⟩, ⟨2, 1⟩] 0 0 0 = some out :=
  claim_C5 ['a', 'b', 'c'] [⟨0, 1⟩, ⟨2, 1⟩] (by decide)

/-- C10: whenever the rewriter succeeds, the output length equals the source
length minus the total length of the replaced records plus their number (one
placeholder byte per replaced record); in particular, when every resolved
length is at least 1 and some replaced constant is at least 2 bytes long,
the output is strictly shorter than the input. -/
theorem claim_C10 (toks : List Token) (spans : List pgssLocationLen)
    (query : List Char) (out : List Char)
    (h : generate_normalized_query toks spans query = some out) :
    (out.length : Int) + resolvedLenSum (fill_in_constant_lengths toks spans query) =
      (query.length : Int) +
        ((resolvedSpans (fill_in_constant_lengths toks spans query)).length : Int) ∧
    ((∀ s ∈ fill_in_constant_lengths toks spans query, 0 ≤ s.length → 1 ≤ s.length) →
     (∃ s ∈ fill_in_constant_lengths toks spans query, 2 ≤ s.length) →
     out.length < query.length) := by
  simp only [generate_normalized_query] at h
  have hspec := rewriteLoop_some_spec query (fill_in_constant_lengths toks spans query)
    0 0 0 out h (by omega) (by omega)
  have heq := hspec.2
  constructor
  · omega
  · intro ha hb
    have hgt := resolvedLenSum_gt_count (fill_in_constant_lengths toks spans query) ha hb
    omega

theorem claim_C10_witness :
    ((['a', 'b', '?'] : List Char).length : Int) +
        resolvedLenSum (fill_in_constant_lengths [⟨2, 4⟩] [⟨2, -1⟩] ['a', 'b', '1', '2']) =
      ((['a', 'b', '1', '2'] : List Char).length : Int) +
        ((resolvedSpans (fill_in_constant_lengths [⟨2, 4⟩] [⟨2, -1⟩] ['a', 'b', '1', '2'])).length : Int) :=
  (claim_C10 [⟨2, 4⟩] [⟨2, -1⟩] ['a', 'b', '1', '2'] ['a', 'b', '?'] (by decide)).1

theorem claim_C9_witness :
    JInv (appendSpan initJState 3) ∧
    (appendSpan initJState 3).clocations_count = initJState.clocations_count + 1 ∧
    (appendSpan initJState 3).clocations[initJState.clocations_count]? = some ⟨3, -1⟩ ∧
    initJState.clocations_count < (appendSpan initJState 3).clocations_buf_size :=
  claim_C9 initJState 3 (by simp only [JInv]; decide)

end PgQuery
